import Mathlib

/- Verification of the SFTP cloud connector core: path jail (sftp_server.py
   _normalize_posix / _resolve_local_path), SFTP verb status mapping, the
   metered transfer counters, the terminal guard of the session supervisor
   (handle_client), and credential verification (app/services.py,
   app/security.py). Host filesystem and document-store effects are taken as
   oracle parameters; all string manipulation follows the Python source. -/

namespace SftpCloud

/-! Path canonicalization, from sftp_server.py _normalize_posix.
    Python strings are modelled as lists of characters; each step below
    mirrors one line of the source. -/

/-- One character of path.replace of backslash by slash. -/
def replSlash (c : Char) : Char := if c = '\\' then '/' else c

/-- Python str.split on a single separator character: keeps empty pieces,
    and splitting the empty string yields one empty piece. -/
def splitChar (sep : Char) : List Char → List (List Char)
  | [] => [[]]
  | c :: rest =>
    if c = sep then [] :: splitChar sep rest
    else
      match splitChar sep rest with
      | s :: ss => (c :: s) :: ss
      | [] => [[c]]

/-- The for-loop of _normalize_posix: skip empty and dot segments, pop on
    dot-dot (never below the root), append the rest. The accumulator holds
    the Python list reversed, so append is cons and pop is tail. -/
def normParts : List (List Char) → List (List Char) → List (List Char)
  | [], acc => acc.reverse
  | part :: rest, acc =>
    if part = [] ∨ part = ['.'] then normParts rest acc
    else if part = ['.', '.'] then normParts rest acc.tail
    else normParts rest (part :: acc)

/-- Python str.join with a slash separator. -/
def joinSeg : List (List Char) → List Char
  | [] => []
  | [x] => x
  | x :: y :: rest => x ++ '/' :: joinSeg (y :: rest)

/-- The drive strip: when the second character is a colon, keep the suffix
    from index two (Python path[2:]). -/
def stripDrive : List Char → List Char
  | a :: b :: rest => if b = ':' then rest else a :: b :: rest
  | l => l

/-- Ensure a leading slash as in the startswith check of the source. -/
def ensureSlash (l : List Char) : List Char :=
  if l.head? = some '/' then l else '/' :: l

/-- The final return of _normalize_posix: a slash-joined form, or the root
    when no segments remain. -/
def normJoin (parts : List (List Char)) : List Char :=
  if parts = [] then ['/'] else '/' :: joinSeg parts

/-- _normalize_posix on the underlying character list. -/
def normChars (l : List Char) : List Char :=
  if l = [] ∨ l = ['.'] then ['/']
  else
    normJoin (normParts (splitChar '/' (ensureSlash (stripDrive (l.map replSlash)))) [])

/-- _normalize_posix of sftp_server.py. -/
def normalize_posix (s : String) : String := String.mk (normChars s.data)

/-- The canonicalize SFTP verb, which simply calls _normalize_posix. -/
def canonicalize (s : String) : String := normalize_posix s

/-- Second character of a list, the position the drive strip inspects. -/
def drive_second : List Char → Option Char
  | _ :: c :: _ => some c
  | _ => none

/-- A well-formed canonical segment: nonempty, not a dot or dot-dot segment,
    and free of separators and backslashes. -/
def wfSeg (x : List Char) : Prop :=
  x ≠ [] ∧ x ≠ ['.'] ∧ x ≠ ['.', '.'] ∧ '/' ∉ x ∧ '\\' ∉ x

lemma splitChar_ne_nil (sep : Char) (l : List Char) : splitChar sep l ≠ [] := by
  cases l with
  | nil => simp [splitChar]
  | cons c rest =>
    simp only [splitChar]
    split
    · simp
    · cases h : splitChar sep rest <;> simp

lemma mem_splitChar {sep : Char} {l x : List Char} (hx : x ∈ splitChar sep l) :
    sep ∉ x ∧ ∀ c ∈ x, c ∈ l := by
  induction l generalizing x with
  | nil =>
    simp [splitChar] at hx
    subst hx
    simp
  | cons c rest ih =>
    simp only [splitChar] at hx
    by_cases hc : c = sep
    · rw [if_pos hc] at hx
      rcases List.mem_cons.mp hx with h | h
      · subst h; simp
      · obtain ⟨h1, h2⟩ := ih h
        exact ⟨h1, fun d hd => List.mem_cons_of_mem c (h2 d hd)⟩
    · rw [if_neg hc] at hx
      cases hsp : splitChar sep rest with
      | nil => exact absurd hsp (splitChar_ne_nil sep rest)
      | cons s ss =>
        rw [hsp] at hx
        rcases List.mem_cons.mp hx with h | h
        · subst h
          obtain ⟨h1, h2⟩ := ih (hsp ▸ List.mem_cons_self s ss)
          refine ⟨?_, ?_⟩
          · intro hmem
            rcases List.mem_cons.mp hmem with h3 | h3
            · exact hc h3.symm
            · exact h1 h3
          · intro d hd
            rcases List.mem_cons.mp hd with h3 | h3
            · exact h3 ▸ List.mem_cons_self c rest
            · exact List.mem_cons_of_mem c (h2 d h3)
        · obtain ⟨h1, h2⟩ := ih (hsp ▸ List.mem_cons_of_mem s h)
          exact ⟨h1, fun d hd => List.mem_cons_of_mem c (h2 d hd)⟩

lemma mem_normParts {l acc : List (List Char)} {x : List Char}
    (hx : x ∈ normParts l acc) :
    x ∈ acc ∨ (x ∈ l ∧ ¬(x = [] ∨ x = ['.']) ∧ x ≠ ['.', '.']) := by
  induction l generalizing acc with
  | nil =>
    simp [normParts] at hx
    exact Or.inl hx
  | cons part rest ih =>
    simp only [normParts] at hx
    split at hx
    · rcases ih hx with h | ⟨h1, h2⟩
      · exact Or.inl h
      · exact Or.inr ⟨List.mem_cons_of_mem part h1, h2⟩
    · split at hx
      · rcases ih hx with h | ⟨h1, h2⟩
        · exact Or.inl (List.mem_of_mem_tail h)
        · exact Or.inr ⟨List.mem_cons_of_mem part h1, h2⟩
      · rcases ih hx with h | ⟨h1, h2⟩
        · rcases List.mem_cons.mp h with h3 | h3
          · subst h3
            rename_i hg1 hg2
            exact Or.inr ⟨List.mem_cons_self x rest, hg1, hg2⟩
          · exact Or.inl h3
        · exact Or.inr ⟨List.mem_cons_of_mem part h1, h2⟩

lemma normParts_wf (l acc : List (List Char))
    (h : ∀ x ∈ l, ¬(x = [] ∨ x = ['.']) ∧ x ≠ ['.', '.']) :
    normParts l acc = acc.reverse ++ l := by
  induction l generalizing acc with
  | nil => simp [normParts]
  | cons part rest ih =>
    obtain ⟨h1, h2⟩ := h part (List.mem_cons_self part rest)
    simp only [normParts, if_neg h1, if_neg h2]
    rw [ih (part :: acc) (fun x hx => h x (List.mem_cons_of_mem part hx))]
    simp

lemma splitChar_no_sep (sep : Char) (x : List Char) (h : sep ∉ x) :
    splitChar sep x = [x] := by
  induction x with
  | nil => simp [splitChar]
  | cons c rest ih =>
    have hc : ¬(c = sep) := fun hc => h (hc ▸ List.mem_cons_self c rest)
    have hr : sep ∉ rest := fun hr => h (List.mem_cons_of_mem c hr)
    simp [splitChar, if_neg hc, ih hr]

lemma splitChar_append (sep : Char) (a b : List Char) (h : sep ∉ a) :
    splitChar sep (a ++ sep :: b) = a :: splitChar sep b := by
  induction a with
  | nil => simp [splitChar]
  | cons c a2 ih =>
    have hc : ¬(c = sep) := fun hc => h (hc ▸ List.mem_cons_self c a2)
    have ha : sep ∉ a2 := fun ha => h (List.mem_cons_of_mem c ha)
    simp only [List.cons_append, splitChar, if_neg hc, List.append_eq, ih ha]

lemma splitChar_joinSeg (parts : List (List Char)) (hne : parts ≠ [])
    (h : ∀ x ∈ parts, '/' ∉ x) : splitChar '/' (joinSeg parts) = parts := by
  induction parts with
  | nil => exact absurd rfl hne
  | cons x rest ih =>
    cases rest with
    | nil =>
      simp only [joinSeg]
      exact splitChar_no_sep '/' x (h x (List.mem_cons_self x []))
    | cons y r2 =>
      simp only [joinSeg]
      rw [splitChar_append '/' x (joinSeg (y :: r2)) (h x (List.mem_cons_self x _))]
      rw [ih (by simp) (fun z hz => h z (List.mem_cons_of_mem x hz))]

lemma replSlash_ne_bs (c : Char) : replSlash c ≠ '\\' := by
  unfold replSlash
  split
  · decide
  · assumption

lemma not_bs_map_replSlash (l : List Char) : '\\' ∉ l.map replSlash := by
  intro h
  obtain ⟨c, _, hc⟩ := List.mem_map.mp h
  exact replSlash_ne_bs c hc

lemma map_replSlash_id (l : List Char) (h : '\\' ∉ l) : l.map replSlash = l := by
  induction l with
  | nil => simp
  | cons c rest ih =>
    have hc : c ≠ '\\' := fun hc => h (hc ▸ List.mem_cons_self c rest)
    have hr : '\\' ∉ rest := fun hr => h (List.mem_cons_of_mem c hr)
    simp [replSlash, if_neg hc, ih hr]

lemma joinSeg_not_mem (c : Char) (hc : c ≠ '/') (parts : List (List Char))
    (h : ∀ x ∈ parts, c ∉ x) : c ∉ joinSeg parts := by
  induction parts with
  | nil => simp [joinSeg]
  | cons x rest ih =>
    cases rest with
    | nil =>
      simp only [joinSeg]
      exact h x (List.mem_cons_self x [])
    | cons y r2 =>
      simp only [joinSeg]
      intro hmem
      rcases List.mem_append.mp hmem with h1 | h1
      · exact h x (List.mem_cons_self x _) h1
      · rcases List.mem_cons.mp h1 with h2 | h2
        · exact hc h2
        · exact ih (fun z hz => h z (List.mem_cons_of_mem x hz)) h2

lemma mem_stripDrive {c : Char} {l : List Char} (h : c ∈ stripDrive l) : c ∈ l := by
  match l with
  | [] => exact h
  | [a] => exact h
  | a :: b :: rest =>
    simp only [stripDrive] at h
    split at h
    · exact List.mem_cons_of_mem a (List.mem_cons_of_mem b h)
    · exact h

lemma mem_ensureSlash {c : Char} {l : List Char} (h : c ∈ ensureSlash l) :
    c = '/' ∨ c ∈ l := by
  unfold ensureSlash at h
  split at h
  · exact Or.inr h
  · rcases List.mem_cons.mp h with h1 | h1
    · exact Or.inl h1
    · exact Or.inr h1

/-- Every output of _normalize_posix is the root, or a slash followed by
    well-formed segments joined by slashes. -/
lemma normChars_shape (l : List Char) :
    normChars l = ['/'] ∨
      ∃ parts, parts ≠ [] ∧ (∀ x ∈ parts, wfSeg x) ∧
        normChars l = '/' :: joinSeg parts := by
  unfold normChars
  split
  · exact Or.inl rfl
  · unfold normJoin
    split
    · exact Or.inl rfl
    · rename_i hne
      refine Or.inr ⟨_, hne, ?_, rfl⟩
      intro x hx
      rcases mem_normParts hx with h | ⟨h1, h2, h3⟩
      · simp at h
      · obtain ⟨hsep, hsub⟩ := mem_splitChar h1
        push_neg at h2
        refine ⟨h2.1, h2.2, h3, hsep, ?_⟩
        intro hbs
        have hl3 := hsub '\\' hbs
        rcases mem_ensureSlash hl3 with h4 | h4
        · exact absurd h4 (by decide)
        · exact not_bs_map_replSlash l (mem_stripDrive h4)

/-- Idempotence of _normalize_posix on the character level, for outputs whose
    second character is not a colon (otherwise the drive strip fires again). -/
lemma normChars_idem (l : List Char) (h : drive_second (normChars l) ≠ some ':') :
    normChars (normChars l) = normChars l := by
  rcases normChars_shape l with hsh | ⟨parts, hne, hwf, hsh⟩
  · rw [hsh]; decide
  · rw [hsh] at h ⊢
    obtain ⟨p, rest, rfl⟩ : ∃ p rest, parts = p :: rest := by
      cases parts with
      | nil => exact absurd rfl hne
      | cons p rest => exact ⟨p, rest, rfl⟩
    obtain ⟨c, p2, rfl⟩ : ∃ c p2, p = c :: p2 := by
      have := (hwf p (List.mem_cons_self p rest)).1
      cases p with
      | nil => exact absurd rfl this
      | cons c p2 => exact ⟨c, p2, rfl⟩
    have hjoin : ∃ t, joinSeg ((c :: p2) :: rest) = c :: t := by
      cases rest with
      | nil => exact ⟨p2, rfl⟩
      | cons y r2 => exact ⟨p2 ++ '/' :: joinSeg (y :: r2), rfl⟩
    obtain ⟨t, ht⟩ := hjoin
    have hc : c ≠ ':' := by
      rw [ht] at h
      simp [drive_second] at h
      exact h
    have hnobs : '\\' ∉ ('/' :: joinSeg ((c :: p2) :: rest) : List Char) := by
      intro hmem
      rcases List.mem_cons.mp hmem with h1 | h1
      · exact absurd h1 (by decide)
      · exact joinSeg_not_mem '\\' (by decide) _
          (fun x hx => (hwf x hx).2.2.2.2) h1
    have hguard : ¬(('/' :: joinSeg ((c :: p2) :: rest) : List Char) = [] ∨
        ('/' :: joinSeg ((c :: p2) :: rest) : List Char) = ['.']) := by
      rw [ht]; simp
    unfold normChars
    rw [if_neg hguard]
    rw [map_replSlash_id _ hnobs]
    have hstrip : stripDrive ('/' :: joinSeg ((c :: p2) :: rest)) =
        '/' :: joinSeg ((c :: p2) :: rest) := by
      rw [ht]
      simp only [stripDrive, if_neg hc]
    rw [hstrip]
    have hens : ensureSlash ('/' :: joinSeg ((c :: p2) :: rest)) =
        '/' :: joinSeg ((c :: p2) :: rest) := by
      simp [ensureSlash]
    rw [hens]
    have hsplit : splitChar '/' ('/' :: joinSeg ((c :: p2) :: rest)) =
        [] :: (c :: p2) :: rest := by
      have h1 : splitChar '/' ('/' :: joinSeg ((c :: p2) :: rest)) =
          [] :: splitChar '/' (joinSeg ((c :: p2) :: rest)) := by
        simp [splitChar]
      rw [h1, splitChar_joinSeg _ (by simp) (fun x hx => (hwf x hx).2.2.2.1)]
    rw [hsplit]
    have hnp : normParts ([] :: (c :: p2) :: rest) [] = (c :: p2) :: rest := by
      have h0 : normParts ([] :: (c :: p2) :: rest) ([] : List (List Char)) =
          normParts ((c :: p2) :: rest) [] := by
        simp [normParts]
      rw [h0, normParts_wf _ _ ?_]
      · simp
      · intro x hx
        obtain ⟨w1, w2, w3, _, _⟩ := hwf x hx
        exact ⟨by push_neg; exact ⟨w1, w2⟩, w3⟩
    rw [hnp]
    simp [normJoin]

/-! Path jail, from sftp_server.py _resolve_local_path. Host paths are lists
    of segments below the filesystem root; os-level resolution of symlinks
    and dot segments (Path.resolve) is an oracle parameter, applied before
    the relative_to containment check exactly as in the source. -/

/-- Python str.strip of slashes: drop leading and trailing separator runs. -/
def strip_slashes (l : List Char) : List Char :=
  ((l.dropWhile fun c => c = '/').reverse.dropWhile fun c => c = '/').reverse

/-- Parsing of the relative path by pathlib when joined onto user_root:
    split on separators, discarding empty and single-dot pieces. -/
def path_parts (rel : List Char) : List String :=
  ((splitChar '/' rel).map String.mk).filter fun s => !(s == "" || s == ".")

/-- _resolve_local_path: canonicalize, strip slashes, join below user_root,
    resolve through the filesystem oracle, then require the result to stay
    below user_root (Path.relative_to), raising PathEscape otherwise. -/
def resolve_local_path (userRoot : List String)
    (fsResolve : List String → List String) (p : String) :
    Except Unit (String × List String) :=
  let normalized := normalize_posix p
  let localPath := fsResolve (userRoot ++ path_parts (strip_slashes normalized.data))
  if userRoot.isPrefixOf localPath then Except.ok (normalized, localPath)
  else Except.error ()

/-- Python exception classes distinguished by the verb handlers: the three
    OSError subclasses that can surface from filesystem calls, and any other
    exception. -/
inductive PyErr where
  | fileNotFound
  | permErr
  | ioErr
  | otherErr
deriving DecidableEq

def PyErr.isOSError : PyErr → Bool
  | .otherErr => false
  | _ => true

/-- SFTP verb results: a payload, the OK status, or an error status. -/
inductive SFTPReply (α : Type) where
  | ok (val : α)
  | statusOk
  | noSuchFile
  | permissionDenied
  | failure
deriving DecidableEq

/-- Host-filesystem oracle: outcomes of the os-level calls a verb makes. -/
structure HostFS where
  fsResolve : List String → List String
  path_exists : List String → Bool
  mkdir_parent : List String → Option PyErr
  touch : List String → Option PyErr
  os_open : List String → List Char → Except PyErr Nat
  os_stat : List String → Bool → Except PyErr Nat
  unlink : List String → Option PyErr

def O_WRONLY : Nat := 1
def O_RDWR : Nat := 2
def O_CREAT : Nat := 64
def O_APPEND : Nat := 1024

/-- The open-flag to fopen-mode mapping in the open verb. -/
def open_mode (flags : Nat) : List Char :=
  if flags &&& O_WRONLY ≠ 0 then
    if flags &&& O_APPEND ≠ 0 then ['a', 'b'] else ['w', 'b']
  else if flags &&& O_RDWR ≠ 0 then
    if flags &&& O_APPEND ≠ 0 then ['a', '+', 'b'] else ['r', '+', 'b']
  else ['r', 'b']

/-- The handle built by the open verb: flags, the jailed host path, the
    canonical virtual path used for transfer records, and which sides of
    the counting wrapper are installed. -/
structure SFTPHandleModel where
  flags : Nat
  local_path : List String
  virtual_path : String
  readable : Bool
  writable : Bool
  fileobj : Nat
deriving DecidableEq

/-- The open verb: jail the path, create parent directories, derive the
    mode, create the file when O_CREAT is set and it is absent, then open.
    Any OSError in that block maps to PERMISSION_DENIED and any other
    exception to FAILURE, as in the two handlers of the source. -/
def open_verb (userRoot : List String) (fs : HostFS) (p : String)
    (flags : Nat) : SFTPReply SFTPHandleModel :=
  match resolve_local_path userRoot fs.fsResolve p with
  | .error _ => SFTPReply.permissionDenied
  | .ok (normalized, localPath) =>
    match fs.mkdir_parent localPath with
    | some e => if e.isOSError then SFTPReply.permissionDenied else SFTPReply.failure
    | none =>
      match (if flags &&& O_CREAT ≠ 0 && !fs.path_exists localPath
             then fs.touch localPath else none) with
      | some e => if e.isOSError then SFTPReply.permissionDenied else SFTPReply.failure
      | none =>
        match fs.os_open localPath (open_mode flags) with
        | .error e =>
          if e.isOSError then SFTPReply.permissionDenied else SFTPReply.failure
        | .ok f =>
          SFTPReply.ok
            ⟨flags, localPath, normalized,
             (open_mode flags).contains 'r' || (open_mode flags).contains '+',
             (open_mode flags).contains 'w' || (open_mode flags).contains 'a' ||
               (open_mode flags).contains '+',
             f⟩

/-- The stat verb, through _stat_attributes: os.stat failure maps to
    NO_SUCH_FILE, and a jail failure to PERMISSION_DENIED. -/
def stat_verb (userRoot : List String) (fs : HostFS) (p : String) :
    SFTPReply Nat :=
  match resolve_local_path userRoot fs.fsResolve p with
  | .error _ => SFTPReply.permissionDenied
  | .ok (_, localPath) =>
    match fs.os_stat localPath true with
    | .error _ => SFTPReply.noSuchFile
    | .ok a => SFTPReply.ok a

/-- The remove verb: unlink after jailing; OSError maps to FAILURE. -/
def remove_verb (userRoot : List String) (fs : HostFS) (p : String) :
    SFTPReply Unit :=
  match resolve_local_path userRoot fs.fsResolve p with
  | .error _ => SFTPReply.permissionDenied
  | .ok (_, localPath) =>
    match fs.unlink localPath with
    | none => SFTPReply.statusOk
    | some _ => SFTPReply.failure

lemma resolve_ok_contained {userRoot : List String}
    {fsResolve : List String → List String} {p : String} {n : String}
    {lp : List String}
    (h : resolve_local_path userRoot fsResolve p = Except.ok (n, lp)) :
    userRoot.isPrefixOf lp = true := by
  simp only [resolve_local_path] at h
  split at h
  · rename_i hpre
    injection h with h1
    injection h1 with h2 h3
    exact h3 ▸ hpre
  · exact absurd h (by simp)

/-! Metered file handles and session telemetry, from _CountingIO,
    _record_transfer and ConnectionService (app/services.py). Timestamps
    and database identifiers carry no information the claims use, so the
    record keeps path, direction, size and username. -/

inductive Direction where
  | upload
  | download
deriving DecidableEq

/-- One entry of the in-memory transfer log of the session. -/
structure TransferRecord where
  path : String
  direction : Direction
  size : Int
  username : String
deriving DecidableEq

/-- Per-session counters and buffered transfer log held on the server
    object (transfer_totals and transfer_log). -/
structure SessionState where
  transfer_log : List TransferRecord
  upload_total : Int
  download_total : Int
deriving DecidableEq

def init_state : SessionState := ⟨[], 0, 0⟩

/-- _record_transfer: ignore non-positive sizes, otherwise append a record
    and add the size to the counter of that direction. -/
def record_transfer (st : SessionState) (user : String) (dir : Direction)
    (path : String) (size : Int) : SessionState :=
  if size ≤ 0 then st
  else
    match dir with
    | Direction.upload =>
      ⟨st.transfer_log ++ [⟨path, dir, size, user⟩],
       st.upload_total + size, st.download_total⟩
    | Direction.download =>
      ⟨st.transfer_log ++ [⟨path, dir, size, user⟩],
       st.upload_total, st.download_total + size⟩

/-- _CountingIO.read: a nonempty result of n bytes records a download. -/
def counting_read (st : SessionState) (user path : String) (n : Nat) :
    SessionState :=
  if n ≠ 0 then record_transfer st user Direction.download path (Int.ofNat n)
  else st

/-- _CountingIO.write: a nonzero written count records an upload of that
    many bytes. -/
def counting_write (st : SessionState) (user path : String) (written : Nat) :
    SessionState :=
  if written ≠ 0 then record_transfer st user Direction.upload path (Int.ofNat written)
  else st

/-- One framing-layer call on a metered handle. -/
inductive HandleEvent where
  | readEv (path : String) (n : Nat)
  | writeEv (path : String) (n : Nat)

def session_step (user : String) (st : SessionState) (e : HandleEvent) :
    SessionState :=
  match e with
  | HandleEvent.readEv path n => counting_read st user path n
  | HandleEvent.writeEv path n => counting_write st user path n

def run_session (user : String) (events : List HandleEvent) : SessionState :=
  List.foldl (session_step user) init_state events

/-- Sum of logged sizes in one direction. -/
def sum_dir (d : Direction) : List TransferRecord → Int
  | [] => 0
  | t :: rest => (if t.direction = d then t.size else 0) + sum_dir d rest

/-- The counters agree with the buffered log. -/
def totals_consistent (st : SessionState) : Prop :=
  st.upload_total = sum_dir Direction.upload st.transfer_log ∧
    st.download_total = sum_dir Direction.download st.transfer_log

/-- The finalized Connection Record document written by end_connection,
    with the transfer batch flushed alongside it. -/
structure ConnectionDoc where
  active : Bool
  bytes_uploaded : Int
  bytes_downloaded : Int
  ended : Bool
deriving DecidableEq

/-- ConnectionService.end_connection: mark inactive, record the totals,
    and persist the buffered transfers. -/
def end_connection (bytes_uploaded bytes_downloaded : Int)
    (transfers : List TransferRecord) : ConnectionDoc × List TransferRecord :=
  (⟨false, bytes_uploaded, bytes_downloaded, true⟩, transfers)

lemma sum_dir_append (d : Direction) (l1 l2 : List TransferRecord) :
    sum_dir d (l1 ++ l2) = sum_dir d l1 + sum_dir d l2 := by
  induction l1 with
  | nil => simp [sum_dir]
  | cons t rest ih => simp [sum_dir, ih]; ring

lemma record_transfer_consistent {st : SessionState} (user : String)
    (dir : Direction) (path : String) (size : Int)
    (h : totals_consistent st) :
    totals_consistent (record_transfer st user dir path size) := by
  unfold record_transfer
  split
  · exact h
  · obtain ⟨h1, h2⟩ := h
    cases dir <;>
      simp [totals_consistent, sum_dir_append, sum_dir, h1, h2]

lemma session_step_consistent {st : SessionState} (user : String)
    (e : HandleEvent) (h : totals_consistent st) :
    totals_consistent (session_step user st e) := by
  cases e with
  | readEv path n =>
    simp only [session_step, counting_read]
    split
    · exact record_transfer_consistent user _ path _ h
    · exact h
  | writeEv path n =>
    simp only [session_step, counting_write]
    split
    · exact record_transfer_consistent user _ path _ h
    · exact h

lemma run_consistent (user : String) (events : List HandleEvent) :
    totals_consistent (run_session user events) := by
  unfold run_session
  have hgen : ∀ (evs : List HandleEvent) (st : SessionState),
      totals_consistent st →
        totals_consistent (List.foldl (session_step user) st evs) := by
    intro evs
    induction evs with
    | nil => intro st h; exact h
    | cons e rest ih =>
      intro st h
      exact ih _ (session_step_consistent user e h)
  exact hgen events init_state (by constructor <;> rfl)

/-! Session supervisor, from handle_client in sftp_server.py. The try-block
    milestones that decide the behaviour of the terminal block are taken as an
    environment: whether the transport came up, whether a channel was opened
    within the timeout, whether authentication populated user_doc, the
    outcome of the Connection Record insert, whether the serving phase raised,
    and whether end_connection itself raised. -/

structure SessionEnv where
  transport_ok : Bool
  channel_opened : Bool
  auth_ok : Bool
  start_connection : Except Unit Nat
  serve_ok : Bool
  end_ok : Bool
  state : SessionState

/-- One invocation of ConnectionService.end_connection from the terminal
    block, with the arguments handle_client passes. -/
structure FinalizeCall where
  connection_id : Nat
  bytes_uploaded : Int
  bytes_downloaded : Int
  transfers : List TransferRecord
deriving DecidableEq

structure SessionOutcome where
  served : Bool
  finalize_calls : List FinalizeCall
deriving DecidableEq

/-- The control flow of handle_client. Every path through the try block and its
    exception handler reaches the terminal block, which calls end_connection
    exactly when connection_id was assigned; a failure inside end_connection
    is caught and only logged. -/
def handle_client (env : SessionEnv) : SessionOutcome :=
  if !env.transport_ok then ⟨false, []⟩
  else if !env.channel_opened then ⟨false, []⟩
  else if !env.auth_ok then ⟨false, []⟩
  else
    match env.start_connection with
    | Except.error _ => ⟨false, []⟩
    | Except.ok cid =>
      if env.serve_ok then
        ⟨true, [⟨cid, env.state.upload_total, env.state.download_total,
                 env.state.transfer_log⟩]⟩
      else
        ⟨true, [⟨cid, env.state.upload_total, env.state.download_total,
                 env.state.transfer_log⟩]⟩

/-- Whether the session inserted a Connection Record. -/
def inserted_record (env : SessionEnv) : Bool :=
  env.transport_ok && env.channel_opened && env.auth_ok &&
    (match env.start_connection with
     | Except.ok _ => true
     | Except.error _ => false)

/-! Credential verification, from UserService.authenticate (app/services.py)
    and verify_password (app/security.py). The user collection and the
    bcrypt primitive are oracles; a ValueError from bcrypt.checkpw on an
    empty or malformed stored hash appears as the error case. -/

/-- A user document; absent fields are None-like and read through get
    with the defaults of the source. -/
structure UserDoc where
  username : String
  password_hash : Option String
  is_active : Option Bool
deriving DecidableEq

structure BcryptOracle where
  checkpw : String → String → Except Unit Bool

/-- verify_password: bcrypt.checkpw, with ValueError caught as False. -/
def verify_password (bc : BcryptOracle) (password password_hash : String) :
    Bool :=
  match bc.checkpw password password_hash with
  | Except.ok r => r
  | Except.error _ => false

/-- The users collection and the last_login update, which may raise a
    store error. -/
structure UserStore where
  find_one : String → Option UserDoc
  update_last_login : UserDoc → Except Unit Unit

/-- UserService.authenticate: reject unknown or inactive users and failed
    verification, then update last_login (unguarded in the source, so a
    store error propagates) and return the user document. -/
def authenticate (store : UserStore) (bc : BcryptOracle)
    (username password : String) : Except Unit (Option UserDoc) :=
  match store.find_one username with
  | none => Except.ok none
  | some user =>
    if (user.is_active.getD true) = false then Except.ok none
    else if verify_password bc password (user.password_hash.getD "") = false then
      Except.ok none
    else
      match store.update_last_login user with
      | Except.error e => Except.error e
      | Except.ok _ => Except.ok (some user)

/-! Concrete oracles used by witnesses and counterexamples. -/

/-- A host filesystem where resolution is the identity and every os call
    succeeds. -/
def idFS : HostFS :=
  ⟨fun l => l, fun _ => true, fun _ => none, fun _ => none,
   fun _ _ => Except.ok 0, fun _ _ => Except.ok 7, fun _ => none⟩

/-- A host filesystem where the target file is absent and opening it for
    reading raises the not-found OSError. -/
def fsMissing : HostFS :=
  ⟨fun l => l, fun _ => false, fun _ => none, fun _ => none,
   fun _ _ => Except.error PyErr.fileNotFound,
   fun _ _ => Except.error PyErr.fileNotFound, fun _ => none⟩

/-- A bcrypt oracle that accepts everything. -/
def bcAlways : BcryptOracle := ⟨fun _ _ => Except.ok true⟩

/-- A bcrypt oracle that raises on the empty hash and otherwise compares
    against one fixed credential pair. -/
def bcExact : BcryptOracle :=
  ⟨fun pw h => if h = "" then Except.error () else Except.ok (pw == "pw" && h == "H")⟩

def aliceDoc : UserDoc := ⟨"alice", some "HASH", some true⟩

def bobDoc : UserDoc := ⟨"bob", some "H", some false⟩

def carolDoc : UserDoc := ⟨"carol", some "H", none⟩

/-- A store whose last_login update always raises a store error. -/
def storeFailUpdate : UserStore :=
  ⟨fun u => if u = "alice" then some aliceDoc else none, fun _ => Except.error ()⟩

/-- A store holding the inactive user bob; updates succeed. -/
def storeBob : UserStore :=
  ⟨fun u => if u = "bob" then some bobDoc else none, fun _ => Except.ok ()⟩

/-- A store holding carol, whose document lacks the is_active field. -/
def storeCarol : UserStore :=
  ⟨fun u => if u = "carol" then some carolDoc else none, fun _ => Except.ok ()⟩

/-- A session in which the Connection Record insert raises a store error. -/
def env_store_fail : SessionEnv :=
  ⟨true, true, true, Except.error (), true, true, init_state⟩

/-! Claim theorems. -/

/-- C1: for every client-supplied virtual path, _resolve_local_path either
fails with PathEscape (so the verbs return PERMISSION_DENIED) or returns a
host path equal to or strictly below user_root, and no verb returns success
for a path resolving outside that subtree, whatever dot-dot segments,
backslashes or drive prefixes the input contains. -/
theorem C1_path_jail_confinement :
    ∀ (userRoot : List String) (fs : HostFS) (p : String) (flags : Nat),
      (∀ n lp, resolve_local_path userRoot fs.fsResolve p = Except.ok (n, lp) →
        userRoot.isPrefixOf lp = true)
      ∧ (∀ h, open_verb userRoot fs p flags = SFTPReply.ok h →
          userRoot.isPrefixOf h.local_path = true)
      ∧ (∀ a, stat_verb userRoot fs p = SFTPReply.ok a →
          ∃ n lp, resolve_local_path userRoot fs.fsResolve p = Except.ok (n, lp) ∧
            userRoot.isPrefixOf lp = true)
      ∧ (remove_verb userRoot fs p = SFTPReply.statusOk →
          ∃ n lp, resolve_local_path userRoot fs.fsResolve p = Except.ok (n, lp) ∧
            userRoot.isPrefixOf lp = true)
      ∧ (resolve_local_path userRoot fs.fsResolve p = Except.error () →
          open_verb userRoot fs p flags = SFTPReply.permissionDenied ∧
          stat_verb userRoot fs p = SFTPReply.permissionDenied ∧
          remove_verb userRoot fs p = SFTPReply.permissionDenied) := by
  intro userRoot fs p flags
  refine ⟨fun n lp h => resolve_ok_contained h, ?_, ?_, ?_, ?_⟩
  · intro h hopen
    cases hr : resolve_local_path userRoot fs.fsResolve p with
    | error e => simp [open_verb, hr] at hopen
    | ok val =>
      obtain ⟨n, lp⟩ := val
      simp only [open_verb, hr] at hopen
      cases hm : fs.mkdir_parent lp with
      | some e =>
        simp only [hm] at hopen
        split at hopen <;> exact SFTPReply.noConfusion hopen
      | none =>
        simp only [hm] at hopen
        cases ht : (if flags &&& O_CREAT ≠ 0 && !fs.path_exists lp
                    then fs.touch lp else none) with
        | some e =>
          simp only [ht] at hopen
          split at hopen <;> exact SFTPReply.noConfusion hopen
        | none =>
          simp only [ht] at hopen
          cases ho : fs.os_open lp (open_mode flags) with
          | error e =>
            simp only [ho] at hopen
            split at hopen <;> exact SFTPReply.noConfusion hopen
          | ok f =>
            simp only [ho] at hopen
            cases hopen
            exact resolve_ok_contained hr
  · intro a hstat
    cases hr : resolve_local_path userRoot fs.fsResolve p with
    | error e => simp [stat_verb, hr] at hstat
    | ok val =>
      obtain ⟨n, lp⟩ := val
      exact ⟨n, lp, rfl, resolve_ok_contained hr⟩
  · intro hrem
    cases hr : resolve_local_path userRoot fs.fsResolve p with
    | error e => simp [remove_verb, hr] at hrem
    | ok val =>
      obtain ⟨n, lp⟩ := val
      exact ⟨n, lp, rfl, resolve_ok_contained hr⟩
  · intro hr
    exact ⟨by simp [open_verb, hr], by simp [stat_verb, hr], by simp [remove_verb, hr]⟩

/-- C1 witness: a dot-dot escape attempt under home alice resolves back
inside the home subtree, and the jail accepts it there. -/
theorem C1_path_jail_confinement_witness :
    ["home", "alice"].isPrefixOf ["home", "alice", "etc", "passwd"] = true :=
  (C1_path_jail_confinement ["home", "alice"] idFS "/../../etc/passwd" 0).1
    "/etc/passwd" ["home", "alice", "etc", "passwd"] rfl

/-- C5 counterexample: canonicalize is not idempotent on an input whose
first segment begins with a colon; the drive strip fires on the second
pass. -/
theorem C5_canonicalize_idem_counterexample :
    canonicalize (canonicalize ":a") ≠ canonicalize ":a" := by decide

/-- C5 amended: canonicalize is idempotent on every input whose canonical
form does not carry a colon as its second character (the drive-strip
trigger); on such outputs a second pass is the identity. -/
theorem C5_canonicalize_idem_amended :
    ∀ p : String, drive_second (canonicalize p).data ≠ some ':' →
      canonicalize (canonicalize p) = canonicalize p := by
  intro p h
  show String.mk (normChars (normChars p.data)) = String.mk (normChars p.data)
  exact congrArg String.mk (normChars_idem p.data h)

/-- C5 witness: the amended idempotence applied to a plain path. -/
theorem C5_canonicalize_idem_witness :
    canonicalize (canonicalize "/a/b") = canonicalize "/a/b" :=
  C5_canonicalize_idem_amended "/a/b" (by decide)

/-- C6: canonicalize maps the specified inputs to their specified outputs,
and every canonical form is the root or a slash-prefixed join of segments
that are nonempty and contain no dot, dot-dot, separator or backslash
segments, so repeated separators are collapsed, dot segments removed, and
dot-dot never rises above the root. -/
theorem C6_canonicalize_algorithm :
    canonicalize "" = "/" ∧ canonicalize "." = "/" ∧
    canonicalize "/a/./b" = "/a/b" ∧ canonicalize "/a/b/../c" = "/a/c" ∧
    canonicalize "\\a\\b" = "/a/b" ∧ canonicalize "C:\\a" = "/a" ∧
    canonicalize "/../.." = "/" ∧
    ∀ p : String, canonicalize p = "/" ∨
      ∃ parts, parts ≠ [] ∧ (∀ x ∈ parts, wfSeg x) ∧
        (canonicalize p).data = '/' :: joinSeg parts := by
  refine ⟨by decide, by decide, by decide, by decide, by decide, by decide,
    by decide, ?_⟩
  intro p
  rcases normChars_shape p.data with h | ⟨parts, h1, h2, h3⟩
  · left
    show String.mk (normChars p.data) = "/"
    rw [h]
  · right
    exact ⟨parts, h1, h2, h3⟩

/-- C6 witness: the first specified mapping, extracted from the theorem. -/
theorem C6_canonicalize_algorithm_witness :
    canonicalize "" = "/" := C6_canonicalize_algorithm.1

/-- C2: a session that inserts a Connection Record reaches the terminal
block and its end_connection call exactly once, with the accumulated totals and the
buffered transfer log, on the normal path and on every error path, and a
session that never inserts never finalizes. -/
theorem C2_finalize_exactly_once :
    ∀ env : SessionEnv,
      ((handle_client env).finalize_calls.length =
        if inserted_record env = true then 1 else 0)
      ∧ (∀ c ∈ (handle_client env).finalize_calls,
          c.bytes_uploaded = env.state.upload_total ∧
          c.bytes_downloaded = env.state.download_total ∧
          c.transfers = env.state.transfer_log)
      ∧ (inserted_record env = false →
          (handle_client env).finalize_calls = []) := by
  intro env
  obtain ⟨t, ch, au, sc, sv, eo, st⟩ := env
  cases t <;> cases ch <;> cases au <;> cases sc <;> cases sv <;>
    simp [handle_client, inserted_record]

/-- C2 witness: the finalize call of a concrete completed session carries
the totals and log of the session. -/
theorem C2_finalize_exactly_once_witness :
    (⟨5, 0, 0, []⟩ : FinalizeCall).bytes_uploaded = init_state.upload_total ∧
    (⟨5, 0, 0, []⟩ : FinalizeCall).bytes_downloaded = init_state.download_total ∧
    (⟨5, 0, 0, []⟩ : FinalizeCall).transfers = init_state.transfer_log :=
  (C2_finalize_exactly_once
      ⟨true, true, true, Except.ok 5, true, true, init_state⟩).2.1
    ⟨5, 0, 0, []⟩ (by decide)

/-- C3: authenticate returns a rejection exactly when the user is unknown,
inactive, or verification fails (a malformed or empty stored hash raises in
bcrypt and is caught as a mismatch); an inactive user is rejected even with
a correct password, and success returns the looked-up user document. -/
theorem C3_authenticate_rejection :
    ∀ (store : UserStore) (bc : BcryptOracle) (u p : String),
      (authenticate store bc u p = Except.ok none ↔
        store.find_one u = none ∨
          ∃ user, store.find_one u = some user ∧
            (user.is_active.getD true = false ∨
             verify_password bc p (user.password_hash.getD "") = false))
      ∧ (∀ user, store.find_one u = some user →
          user.is_active.getD true = false →
          bc.checkpw p (user.password_hash.getD "") = Except.ok true →
          authenticate store bc u p = Except.ok none)
      ∧ (∀ hash, bc.checkpw p hash = Except.error () →
          verify_password bc p hash = false)
      ∧ (∀ user, authenticate store bc u p = Except.ok (some user) →
          store.find_one u = some user) := by
  intro store bc u p
  refine ⟨⟨?_, ?_⟩, ?_, ?_, ?_⟩
  · intro h
    cases hf : store.find_one u with
    | none => exact Or.inl rfl
    | some user =>
      refine Or.inr ⟨user, rfl, ?_⟩
      simp only [authenticate, hf] at h
      by_cases ha : user.is_active.getD true = false
      · exact Or.inl ha
      · rw [if_neg ha] at h
        by_cases hv : verify_password bc p (user.password_hash.getD "") = false
        · exact Or.inr hv
        · rw [if_neg hv] at h
          cases hu : store.update_last_login user with
          | error e => simp [hu] at h
          | ok v => simp [hu] at h
  · intro h
    rcases h with hf | ⟨user, hf, hcond⟩
    · simp [authenticate, hf]
    · by_cases ha : user.is_active.getD true = false
      · simp [authenticate, hf, ha]
      · rcases hcond with h1 | h1
        · exact absurd h1 ha
        · simp [authenticate, hf, ha, h1]
  · intro user hf ha hcw
    simp [authenticate, hf, ha]
  · intro hash hcw
    simp [verify_password, hcw]
  · intro user h
    cases hf : store.find_one u with
    | none => simp [authenticate, hf] at h
    | some u2 =>
      simp only [authenticate, hf] at h
      by_cases ha : u2.is_active.getD true = false
      · rw [if_pos ha] at h
        exact absurd h (by simp)
      · rw [if_neg ha] at h
        by_cases hv : verify_password bc p (u2.password_hash.getD "") = false
        · rw [if_pos hv] at h
          exact absurd h (by simp)
        · rw [if_neg hv] at h
          cases hu : store.update_last_login u2 with
          | error e => simp [hu] at h
          | ok v =>
            simp only [hu, Except.ok.injEq, Option.some.injEq] at h
            subst h
            rfl

/-- C3 witness: the inactive user bob is rejected although the supplied
password verifies against the stored hash. -/
theorem C3_authenticate_rejection_witness :
    authenticate storeBob bcExact "bob" "pw" = Except.ok none :=
  (C3_authenticate_rejection storeBob bcExact "bob" "pw").2.1 bobDoc rfl rfl rfl

/-- C4: a metered read of n bytes with n positive appends one download
record of size n and adds n to the download counter, a metered write does
the same for upload, zero-length operations change nothing, and after any
sequence of handle events the counters, and hence the totals written onto
the finalized Connection Record, equal the per-direction sums over the
buffered log. -/
theorem C4_metered_transfer_accounting :
    ∀ (user : String) (events : List HandleEvent) (p : String) (n : Nat),
      totals_consistent (run_session user events)
      ∧ (∀ st : SessionState, n ≠ 0 →
          session_step user st (HandleEvent.readEv p n) =
            ⟨st.transfer_log ++ [⟨p, Direction.download, Int.ofNat n, user⟩],
             st.upload_total, st.download_total + Int.ofNat n⟩)
      ∧ (∀ st : SessionState, n ≠ 0 →
          session_step user st (HandleEvent.writeEv p n) =
            ⟨st.transfer_log ++ [⟨p, Direction.upload, Int.ofNat n, user⟩],
             st.upload_total + Int.ofNat n, st.download_total⟩)
      ∧ (∀ st : SessionState,
          session_step user st (HandleEvent.readEv p 0) = st ∧
          session_step user st (HandleEvent.writeEv p 0) = st)
      ∧ ((end_connection (run_session user events).upload_total
            (run_session user events).download_total
            (run_session user events).transfer_log).1.bytes_uploaded =
            sum_dir Direction.upload (run_session user events).transfer_log ∧
         (end_connection (run_session user events).upload_total
            (run_session user events).download_total
            (run_session user events).transfer_log).1.bytes_downloaded =
            sum_dir Direction.download (run_session user events).transfer_log) := by
  intro user events p n
  have hpos : n ≠ 0 → ¬(Int.ofNat n ≤ 0) := by
    intro hn
    show ¬((n : Int) ≤ 0)
    omega
  refine ⟨run_consistent user events, ?_, ?_, ?_, ?_⟩
  · intro st hn
    simp [session_step, counting_read, record_transfer, hn, hpos hn]
  · intro st hn
    simp [session_step, counting_write, record_transfer, hn, hpos hn]
  · intro st
    constructor <;> simp [session_step, counting_read, counting_write]
  · exact ⟨(run_consistent user events).1, (run_consistent user events).2⟩

/-- C4 witness: a single three-byte read from the initial state logs one
download record of size three and raises the download counter to three. -/
theorem C4_metered_transfer_accounting_witness :
    session_step "alice" init_state (HandleEvent.readEv "/f" 3) =
      ⟨init_state.transfer_log ++
        [⟨"/f", Direction.download, Int.ofNat 3, "alice"⟩],
       init_state.upload_total, init_state.download_total + Int.ofNat 3⟩ :=
  (C4_metered_transfer_accounting "alice" [] "/f" 3).2.1 init_state (by decide)

/-- C7 counterexample: with a store whose last_login update raises,
authenticate propagates the store error instead of returning the
authenticated user document. -/
theorem C7_last_login_counterexample :
    authenticate storeFailUpdate bcAlways "alice" "pw" = Except.error () ∧
    authenticate storeFailUpdate bcAlways "alice" "pw" ≠
      Except.ok (some aliceDoc) := by
  constructor
  · rfl
  · intro h
    rw [show authenticate storeFailUpdate bcAlways "alice" "pw" =
        Except.error () from rfl] at h
    exact Except.noConfusion h

/-- C7 amended: the last_login update is not guarded; when the store update
raises, authenticate propagates that error and does not return the user. -/
theorem C7_last_login_amended :
    ∀ (store : UserStore) (bc : BcryptOracle) (u p : String)
      (user : UserDoc) (e : Unit),
      store.find_one u = some user →
      user.is_active.getD true ≠ false →
      verify_password bc p (user.password_hash.getD "") ≠ false →
      store.update_last_login user = Except.error e →
      authenticate store bc u p = Except.error e := by
  intro store bc u p user e hf ha hv hu
  simp [authenticate, hf, ha, hv, hu]

/-- C7 witness: the amended propagation applied to the failing store. -/
theorem C7_last_login_amended_witness :
    authenticate storeFailUpdate bcAlways "alice" "pw" = Except.error () :=
  C7_last_login_amended storeFailUpdate bcAlways "alice" "pw" aliceDoc ()
    rfl (by decide) (by decide) rfl

/-- C8 counterexample: opening an absent file for reading without O_CREAT
returns PERMISSION_DENIED, not NO_SUCH_FILE, because the open verb catches
the not-found OSError in its OSError handler. -/
theorem C8_open_notfound_counterexample :
    open_verb [] fsMissing "/missing.txt" 0 = SFTPReply.permissionDenied ∧
    open_verb [] fsMissing "/missing.txt" 0 ≠
      (SFTPReply.noSuchFile : SFTPReply SFTPHandleModel) := by
  constructor
  · rfl
  · intro h
    rw [show open_verb [] fsMissing "/missing.txt" 0 =
        SFTPReply.permissionDenied from rfl] at h
    exact SFTPReply.noConfusion h

/-- C8 amended: inside the open verb, every OSError from the underlying
open, the not-found error included, maps to PERMISSION_DENIED, and any
non-OSError exception maps to FAILURE. -/
theorem C8_open_error_mapping_amended :
    ∀ (userRoot : List String) (fs : HostFS) (p : String) (flags : Nat)
      (n : String) (lp : List String) (e : PyErr),
      resolve_local_path userRoot fs.fsResolve p = Except.ok (n, lp) →
      fs.mkdir_parent lp = none →
      (if flags &&& O_CREAT ≠ 0 && !fs.path_exists lp
       then fs.touch lp else none) = none →
      fs.os_open lp (open_mode flags) = Except.error e →
      open_verb userRoot fs p flags =
        (if e.isOSError then SFTPReply.permissionDenied
         else SFTPReply.failure) := by
  intro userRoot fs p flags n lp e hr hm ht ho
  simp only [open_verb, hr, hm, ht, ho]

/-- C8 witness: the amended mapping applied to the absent-file filesystem
yields PERMISSION_DENIED for the not-found OSError. -/
theorem C8_open_error_mapping_amended_witness :
    open_verb [] fsMissing "/missing.txt" 0 =
      (if PyErr.fileNotFound.isOSError then SFTPReply.permissionDenied
       else SFTPReply.failure) :=
  C8_open_error_mapping_amended [] fsMissing "/missing.txt" 0
    "/missing.txt" ["missing.txt"] PyErr.fileNotFound rfl rfl rfl rfl

/-- C9 counterexample: when the Connection Record insert raises a store
error, the session does not continue serving SFTP verbs; the
handler catches the error and the session ends before serving. -/
theorem C9_insert_failure_counterexample :
    (handle_client env_store_fail).served = false ∧
    (handle_client env_store_fail).finalize_calls = [] := by decide

/-- C9 amended: a store error from the Connection Record insert is caught
by the outer session handler and logged; the session then terminates
without serving SFTP verbs and without finalizing any Connection Record. -/
theorem C9_insert_failure_amended :
    ∀ env : SessionEnv, env.start_connection = Except.error () →
      handle_client env = ⟨false, []⟩ := by
  intro env h
  obtain ⟨t, ch, au, sc, sv, eo, st⟩ := env
  simp only at h
  cases t <;> cases ch <;> cases au <;> simp_all [handle_client]

/-- C9 witness: the amended termination applied to the failing insert. -/
theorem C9_insert_failure_amended_witness :
    handle_client env_store_fail = ⟨false, []⟩ :=
  C9_insert_failure_amended env_store_fail rfl

/-- C10: a user document lacking the is_active field is treated as active,
because the lookup defaults the missing flag to true, so authentication
with a correct password succeeds and returns the document. -/
theorem C10_missing_active_defaults_true :
    ∀ (store : UserStore) (bc : BcryptOracle) (u p : String)
      (user : UserDoc),
      store.find_one u = some user →
      user.is_active = none →
      verify_password bc p (user.password_hash.getD "") = true →
      store.update_last_login user = Except.ok () →
      authenticate store bc u p = Except.ok (some user) := by
  intro store bc u p user hf ha hv hu
  simp [authenticate, hf, ha, hv, hu]

/-- C10 witness: the carol document has no is_active field and the right
password authenticates her. -/
theorem C10_missing_active_defaults_true_witness :
    authenticate storeCarol bcExact "carol" "pw" =
      Except.ok (some carolDoc) :=
  C10_missing_active_defaults_true storeCarol bcExact "carol" "pw" carolDoc
    rfl rfl (by decide) rfl

end SftpCloud
